import Mathlib

/-!
Verification model of the GIXStapose diffraction subsystem.

The repository ships only an example notebook exercising the library
(`gixstapose.diffractometer.Diffractometer`, `gixstapose.draw_scene.get_scene`
and `get_info`); the implementation modules themselves are not among the
supplied files.  Following the specification, the externally observable
contract of the diffraction subsystem is modelled here: a `Diffractometer`
state machine (`load`, `diffract_from_camera`, `plot`), the structure-factor
intensity it computes (direct Fourier summation over particle positions, the
convention the specification leaves open but requires to be fixed and
documented), and the `get_scene` / `get_info` factory functions.

Chosen and documented conventions (the specification's open questions):
* the structure factor is the direct sum `S(q) = Σ_j exp(i q·r_j)` and the
  pattern stores the intensity `|S(q)|²`;
* the reciprocal-space pixel grid has step `2π/(length_scale · Lx)` along the
  two camera-derived in-plane unit directions, so a real-space periodicity `a`
  produces its first peak at reciprocal distance `2π/a`.
-/

namespace Gixstapose

/-- Modelled from the spec: a 3-component vector of coordinates
("3D coordinates", camera position / look_at / up vectors). -/
structure Vec3 (α : Type) where
  x : α
  y : α
  z : α
deriving DecidableEq

/-- Modelled from the spec: "a periodic simulation box (lengths and tilt
factors)" — the box descriptor accepted by `Diffractometer.load`. -/
structure Box where
  Lx : ℚ
  Ly : ℚ
  Lz : ℚ
  xy : ℚ
  xz : ℚ
  yz : ℚ
deriving DecidableEq

/-- Modelled from the spec: "Camera orientation: position, look-at target,
up vector, projection height" (the fields of the notebook's
`fresnel.camera.Orthographic`). -/
structure Camera where
  position : Vec3 ℚ
  look_at : Vec3 ℚ
  up : Vec3 ℚ
  height : ℚ
deriving DecidableEq

/-- Modelled from the spec: "Structure snapshot: ordered sequence of particle
positions (3D coordinates) plus a periodic simulation box". -/
structure Snapshot where
  positions : List (Vec3 ℚ)
  box : Box
deriving DecidableEq

/-- Modelled from the spec: a diffraction pattern is "a 2D intensity grid over
reciprocal-space coordinates"; here the grid is indexed by integer pixel
coordinates. -/
def Pattern : Type := ℤ → ℤ → ℝ

/-- Modelled from the spec: the InvalidInput error class of `load`. -/
inductive LoadError where
  | InvalidInput : LoadError
deriving DecidableEq

/-- Modelled from the spec: the Diffractometer instance state — the
`length_scale` fixed at construction, the currently loaded snapshot (if any),
and the most recently computed pattern (if any), stored for `plot()`. -/
structure Diffractometer where
  length_scale : ℚ
  snapshot : Option Snapshot
  pattern : Option Pattern

/-- Modelled from the spec: the constructor `Diffractometer(length_scale=…)`;
nothing is loaded and no pattern has been computed yet. -/
def Diffractometer.init (ls : ℚ) : Diffractometer :=
  { length_scale := ls, snapshot := none, pattern := none }

/-- Modelled from the spec: `load` input validation — invalid iff "coordinate
count is zero or box dimensions are non-positive". -/
def validInput (pos : List (Vec3 ℚ)) (b : Box) : Bool :=
  !pos.isEmpty && decide (0 < b.Lx) && decide (0 < b.Ly) && decide (0 < b.Lz)

/-- Modelled from the spec: `load(positions, box)` — "replaces any previously
loaded snapshot; fails with an InvalidInput error if coordinate count is zero
or box dimensions are non-positive", the failure "reported synchronously,
operation aborted, prior state (if any) preserved".  The result pairs the new
instance state with the error, if any. -/
def Diffractometer.runLoad (d : Diffractometer) (pos : List (Vec3 ℚ)) (b : Box) :
    Diffractometer × Option LoadError :=
  if validInput pos b then
    ({ d with snapshot := some { positions := pos, box := b } }, none)
  else
    (d, some LoadError.InvalidInput)

/-- Casts a rational coordinate vector into the reals. -/
def Vec3.toR (v : Vec3 ℚ) : Vec3 ℝ :=
  { x := (v.x : ℝ), y := (v.y : ℝ), z := (v.z : ℝ) }

/-- Euclidean dot product of real 3-vectors. -/
def dotR (a b : Vec3 ℝ) : ℝ :=
  a.x * b.x + a.y * b.y + a.z * b.z

/-- Cross product of real 3-vectors. -/
def crossR (a b : Vec3 ℝ) : Vec3 ℝ :=
  { x := a.y * b.z - a.z * b.y
    y := a.z * b.x - a.x * b.z
    z := a.x * b.y - a.y * b.x }

/-- Euclidean norm of a real 3-vector. -/
noncomputable def vnorm (a : Vec3 ℝ) : ℝ :=
  Real.sqrt (dotR a a)

/-- Normalizes a real 3-vector to unit length. -/
noncomputable def vnormalize (a : Vec3 ℝ) : Vec3 ℝ :=
  { x := a.x / vnorm a, y := a.y / vnorm a, z := a.z / vnorm a }

/-- Modelled from the spec: `diffract_from_camera` "derives a viewing
direction" from the camera's position and look-at target. -/
def viewDir (c : Camera) : Vec3 ℝ :=
  { x := (c.look_at.x : ℝ) - (c.position.x : ℝ)
    y := (c.look_at.y : ℝ) - (c.position.y : ℝ)
    z := (c.look_at.z : ℝ) - (c.position.z : ℝ) }

/-- First in-plane unit direction of the diffraction slice: the normalized
cross product of the viewing direction with the camera's up vector. -/
noncomputable def camE1 (c : Camera) : Vec3 ℝ :=
  vnormalize (crossR (viewDir c) (Vec3.toR c.up))

/-- Second in-plane unit direction of the diffraction slice, orthogonal to
both `camE1` and the viewing direction. -/
noncomputable def camE2 (c : Camera) : Vec3 ℝ :=
  vnormalize (crossR (camE1 c) (viewDir c))

/-- Modelled from the spec (documented convention): the reciprocal-space grid
step is `2π/(length_scale · Lx)`. -/
noncomputable def qstep (ls : ℚ) (b : Box) : ℝ :=
  2 * Real.pi / ((ls : ℝ) * (b.Lx : ℝ))

/-- Reciprocal-space point of the pattern pixel `(i, j)`: the slice plane is
spanned by the camera-derived in-plane directions, "oriented perpendicular to"
the viewing direction. -/
noncomputable def qpixel (ls : ℚ) (b : Box) (c : Camera) (i j : ℤ) : Vec3 ℝ :=
  { x := qstep ls b * ((i : ℝ) * (camE1 c).x + (j : ℝ) * (camE2 c).x)
    y := qstep ls b * ((i : ℝ) * (camE1 c).y + (j : ℝ) * (camE2 c).y)
    z := qstep ls b * ((i : ℝ) * (camE1 c).z + (j : ℝ) * (camE2 c).z) }

/-- Modelled from the spec: the structure factor `S(q) = Σ_j exp(i q·r_j)`
(direct Fourier summation over the particle positions, the chosen and
documented convention). -/
noncomputable def structureFactor (pos : List (Vec3 ℚ)) (q : Vec3 ℝ) : ℂ :=
  (pos.map (fun r => Complex.exp (Complex.I * (dotR q r.toR : ℝ)))).sum

/-- Modelled from the spec: the diffraction intensity is the squared
"structure factor magnitude" `|S(q)|²`. -/
noncomputable def intensity (pos : List (Vec3 ℚ)) (q : Vec3 ℝ) : ℝ :=
  Complex.normSq (structureFactor pos q)

/-- Modelled from the spec: the full 2D diffraction pattern "derived
deterministically from (structure snapshot, camera orientation,
length_scale)". -/
noncomputable def computePattern (ls : ℚ) (s : Snapshot) (c : Camera) : Pattern :=
  fun i j => intensity s.positions (qpixel ls s.box c i j)

/-- Modelled from the spec: `diffract_from_camera(camera)` computes the 2D
diffraction slice for the camera, "returns the pattern and also stores it for
`plot()`"; it needs a loaded snapshot. -/
noncomputable def Diffractometer.diffract_from_camera (d : Diffractometer) (c : Camera) :
    Option (Diffractometer × Pattern) :=
  match d.snapshot with
  | none => none
  | some s =>
      some ({ d with pattern := some (computePattern d.length_scale s c) },
            computePattern d.length_scale s c)

/-- Modelled from the spec: the figure handle returned by `plot()`, carrying
the rendered image. -/
structure Figure where
  image : Pattern

/-- Modelled from the spec: the axes handle returned by `plot()` "for further
annotation", attached to the rendered image. -/
structure Axes where
  image : Pattern

/-- Modelled from the spec: `plot()` "renders the most recently computed
pattern as a 2D image …, returns a figure/axes handle pair". -/
def Diffractometer.plot (d : Diffractometer) : Option (Figure × Axes) :=
  d.pattern.map (fun p => ({ image := p }, { image := p }))

/-- Modelled from the spec: a readable structure file, abstracted by the data
the external molecular-file reader supplies — "an ordered position sequence
and a box descriptor". -/
structure StructureFile where
  positions : List (Vec3 ℚ)
  box : Box

/-- Modelled from the spec: the info mapping produced by `get_info` /
`get_scene`, with keys "positions" and "box" (modelled as fields). -/
structure Info where
  positions : List (Vec3 ℚ)
  box : Box
deriving DecidableEq

/-- Modelled from the spec: the `fresnel.Scene` value built by `get_scene`,
abstracted to the structure data it visualizes. -/
structure Scene where
  positions : List (Vec3 ℚ)

/-- Modelled from the spec: `get_info(path)` yields the structure data of the
file without constructing a scene. -/
def get_info (f : StructureFile) : Info :=
  { positions := f.positions, box := f.box }

/-- Modelled from the spec: `get_scene(path)` returns an "immutable
scene/info value pair" for the structure file. -/
def get_scene (f : StructureFile) : Scene × Info :=
  ({ positions := f.positions }, get_info f)

/-- Cubic lattice of `N × N × N` particles with real-space periodicity `a`
("a cubic lattice of particles with known periodicity `a`"). -/
def cubicLattice (N : ℕ) (a : ℚ) : List (Vec3 ℚ) :=
  (List.range N).flatMap (fun m1 : ℕ =>
    (List.range N).flatMap (fun m2 : ℕ =>
      (List.range N).map (fun m3 : ℕ =>
        { x := a * (m1 : ℚ), y := a * (m2 : ℚ), z := a * (m3 : ℚ) })))

/-- Orthorhombic box of side `N · a` enclosing the cubic lattice, with zero
tilt factors. -/
def cubicBox (N : ℕ) (a : ℚ) : Box :=
  { Lx := (N : ℚ) * a, Ly := (N : ℚ) * a, Lz := (N : ℚ) * a
    xy := 0, xz := 0, yz := 0 }

/-- Snapshot holding the cubic lattice in its enclosing box. -/
def latticeSnap (N : ℕ) (a : ℚ) : Snapshot :=
  { positions := cubicLattice N a, box := cubicBox N a }

/-- Camera looking down the z axis at the origin — the canonical view used
for the lattice scenarios. -/
def cam0 : Camera :=
  { position := { x := 0, y := 0, z := 1 }
    look_at := { x := 0, y := 0, z := 0 }
    up := { x := 0, y := 1, z := 0 }
    height := 1 }

/-- Rotation by 90° about the z axis — a symmetry operation of the cubic
lattice about its principal axis. -/
def rotZ90 (v : Vec3 ℚ) : Vec3 ℚ :=
  { x := -v.y, y := v.x, z := v.z }

/-- The camera rotated by the 90° z-axis symmetry operation: every
orientation vector of the camera is rotated. -/
def rotCamZ90 (c : Camera) : Camera :=
  { position := rotZ90 c.position, look_at := rotZ90 c.look_at
    up := rotZ90 c.up, height := c.height }

/-- Rotation by 90° about the z axis on real reciprocal-space vectors — the
action of the lattice symmetry operation `rotZ90` on reciprocal space. -/
def rotR (v : Vec3 ℝ) : Vec3 ℝ :=
  { x := -v.y, y := v.x, z := v.z }

/-- Diffractometer with `length_scale = 1` after loading the cubic lattice. -/
def latticeD (N : ℕ) (a : ℚ) : Diffractometer :=
  ((Diffractometer.init 1).runLoad (cubicLattice N a) (cubicBox N a)).1

/-- Partial geometric sum of `N`-th roots of unity with frequency `k`, the
one-dimensional factor of the lattice structure factor. -/
noncomputable def expSum (N : ℕ) (k : ℤ) : ℂ :=
  ∑ m ∈ Finset.range N, Complex.exp (2 * (Real.pi : ℂ) * Complex.I * (k : ℂ) * (m : ℂ) / (N : ℂ))

/-- One-dimensional phase sum of the cubic lattice at an arbitrary real
reciprocal coordinate `t` — the generic factor of the lattice structure
factor. -/
noncomputable def phaseSum (N : ℕ) (a : ℚ) (t : ℝ) : ℂ :=
  ∑ m ∈ Finset.range N, Complex.exp (Complex.I * ((t * (((a : ℚ) : ℝ) * (m : ℝ)) : ℝ) : ℂ))

/-- Concrete positions used to instantiate the contract theorems. -/
def wPos : List (Vec3 ℚ) :=
  [{ x := 0, y := 0, z := 0 }, { x := 1, y := 0, z := 0 }]

/-- Concrete box used to instantiate the contract theorems. -/
def wBox : Box :=
  { Lx := 10, Ly := 10, Lz := 10, xy := 0, xz := 0, yz := 0 }

/-- Concrete snapshot used to instantiate the contract theorems. -/
def wSnap : Snapshot :=
  { positions := wPos, box := wBox }

/-- Concrete loaded diffractometer used to instantiate the contract
theorems. -/
def wD : Diffractometer :=
  { length_scale := 1, snapshot := some wSnap, pattern := none }

/-- Concrete pattern computed from the concrete snapshot and the canonical
camera. -/
noncomputable def wPat : Pattern :=
  computePattern 1 wSnap cam0

/-- Concrete structure file used to instantiate the factory theorems. -/
def wFile : StructureFile :=
  { positions := wPos, box := wBox }

/-- Sum of a mapped `List.range` as a `Finset.range` sum. -/
lemma sum_map_range (f : ℕ → ℂ) (n : ℕ) :
    ((List.range n).map f).sum = ∑ m ∈ Finset.range n, f m := by
  induction n with
  | zero => simp
  | succ k ih =>
      rw [List.range_succ, List.map_append, List.sum_append, Finset.sum_range_succ, ih]
      simp

/-- Sum of a mapped `flatMap` as an iterated sum. -/
lemma sum_map_flatMap {α β : Type} (l : List α) (f : α → List β) (g : β → ℂ) :
    ((l.flatMap f).map g).sum = (l.map (fun x => ((f x).map g).sum)).sum := by
  induction l with
  | nil => simp
  | cons a t ih => simp [List.flatMap_cons, ih]

/-- Terms of `expSum` are powers of a fixed root of unity. -/
lemma expSum_term (N : ℕ) (k : ℤ) (m : ℕ) :
    Complex.exp (2 * (Real.pi : ℂ) * Complex.I * (k : ℂ) * (m : ℂ) / (N : ℂ))
      = Complex.exp (2 * (Real.pi : ℂ) * Complex.I * (k : ℂ) / (N : ℂ)) ^ m := by
  rw [← Complex.exp_nat_mul]
  congr 1
  ring

/-- Evaluation of the one-dimensional lattice factor: `N` when the frequency
is a multiple of `N`, and `0` otherwise. -/
lemma expSum_eq (N : ℕ) (hN : 0 < N) (k : ℤ) :
    expSum N k = if (N : ℤ) ∣ k then (N : ℂ) else 0 := by
  have hNC : (N : ℂ) ≠ 0 := Nat.cast_ne_zero.mpr hN.ne'
  by_cases hdvd : (N : ℤ) ∣ k
  · rw [if_pos hdvd]
    obtain ⟨c, hc⟩ := hdvd
    have harg : ∀ m : ℕ,
        2 * (Real.pi : ℂ) * Complex.I * (k : ℂ) * (m : ℂ) / (N : ℂ)
          = ((c * m : ℤ) : ℂ) * (2 * (Real.pi : ℂ) * Complex.I) := by
      intro m
      subst hc
      push_cast
      field_simp
      ring
    have hone : ∀ m ∈ Finset.range N,
        Complex.exp (2 * (Real.pi : ℂ) * Complex.I * (k : ℂ) * (m : ℂ) / (N : ℂ)) = 1 := by
      intro m _
      rw [harg m, Complex.exp_int_mul_two_pi_mul_I]
    rw [expSum, Finset.sum_congr rfl hone]
    simp
  · rw [if_neg hdvd]
    have h2πI : 2 * (Real.pi : ℂ) * Complex.I ≠ 0 := by
      have hπ : (Real.pi : ℂ) ≠ 0 := by exact_mod_cast Real.pi_ne_zero
      exact mul_ne_zero (mul_ne_zero two_ne_zero hπ) Complex.I_ne_zero
    have hsum : expSum N k
        = ∑ m ∈ Finset.range N,
            Complex.exp (2 * (Real.pi : ℂ) * Complex.I * (k : ℂ) / (N : ℂ)) ^ m :=
      Finset.sum_congr rfl (fun m _ => expSum_term N k m)
    have hωN : Complex.exp (2 * (Real.pi : ℂ) * Complex.I * (k : ℂ) / (N : ℂ)) ^ N = 1 := by
      rw [← Complex.exp_nat_mul]
      have harg : (N : ℂ) * (2 * (Real.pi : ℂ) * Complex.I * (k : ℂ) / (N : ℂ))
          = (k : ℂ) * (2 * (Real.pi : ℂ) * Complex.I) := by
        field_simp
        ring
      rw [harg, Complex.exp_int_mul_two_pi_mul_I]
    have hω1 : Complex.exp (2 * (Real.pi : ℂ) * Complex.I * (k : ℂ) / (N : ℂ)) ≠ 1 := by
      intro h
      rw [Complex.exp_eq_one_iff] at h
      obtain ⟨n, hn⟩ := h
      apply hdvd
      refine ⟨n, ?_⟩
      have hkey : (k : ℂ) = (N : ℂ) * (n : ℂ) := by
        apply mul_left_cancel₀ h2πI
        field_simp at hn
        linear_combination hn
      exact_mod_cast hkey
    rw [hsum, geom_sum_eq hω1, hωN]
    simp

/-- First in-plane direction of the canonical z-axis camera. -/
lemma camE1_cam0 : camE1 cam0 = { x := 1, y := 0, z := 0 } := by
  simp only [camE1, cam0, viewDir, crossR, Vec3.toR, vnormalize, vnorm, dotR]
  norm_num

/-- Second in-plane direction of the canonical z-axis camera. -/
lemma camE2_cam0 : camE2 cam0 = { x := 0, y := 1, z := 0 } := by
  rw [camE2, camE1_cam0]
  simp only [cam0, viewDir, crossR, vnormalize, vnorm, dotR]
  norm_num

/-- Pixel grid of the canonical camera: the slice plane is the x–y
reciprocal plane. -/
lemma qpixel_cam0 (ls : ℚ) (b : Box) (i j : ℤ) :
    qpixel ls b cam0 i j
      = { x := qstep ls b * (i : ℝ), y := qstep ls b * (j : ℝ), z := 0 } := by
  simp only [qpixel, camE1_cam0, camE2_cam0]
  norm_num

/-- Reciprocal grid step of the lattice box at `length_scale = 1`. -/
lemma qstep_lattice (N : ℕ) (a : ℚ) :
    qstep 1 (cubicBox N a) = 2 * Real.pi / ((N : ℝ) * (a : ℝ)) := by
  simp only [qstep, cubicBox]
  push_cast
  ring_nf

/-- Sum of any complex-valued function over the cubic lattice, written as an
iterated sum over the three index ranges. -/
lemma sum_over_lattice (N : ℕ) (a : ℚ) (g : Vec3 ℚ → ℂ) :
    ((cubicLattice N a).map g).sum
      = ∑ m1 ∈ Finset.range N, ∑ m2 ∈ Finset.range N, ∑ m3 ∈ Finset.range N,
          g { x := a * (m1 : ℚ), y := a * (m2 : ℚ), z := a * (m3 : ℚ) } := by
  rw [cubicLattice, sum_map_flatMap, sum_map_range]
  refine Finset.sum_congr rfl (fun m1 _ => ?_)
  rw [sum_map_flatMap, sum_map_range]
  refine Finset.sum_congr rfl (fun m2 _ => ?_)
  rw [List.map_map, sum_map_range]
  rfl

/-- Single-particle phase factor of the lattice structure factor,
factorized into the two in-plane one-dimensional phases. -/
lemma lattice_term (N : ℕ) (a : ℚ) (hN : 0 < N) (ha : 0 < a) (i j : ℤ) (m1 m2 m3 : ℕ) :
    Complex.exp (Complex.I *
        ((dotR { x := qstep 1 (cubicBox N a) * (i : ℝ)
                 y := qstep 1 (cubicBox N a) * (j : ℝ), z := 0 }
            (Vec3.toR { x := a * (m1 : ℚ), y := a * (m2 : ℚ), z := a * (m3 : ℚ) }) : ℝ)))
      = Complex.exp (2 * (Real.pi : ℂ) * Complex.I * (i : ℂ) * (m1 : ℂ) / (N : ℂ))
        * Complex.exp (2 * (Real.pi : ℂ) * Complex.I * (j : ℂ) * (m2 : ℂ) / (N : ℂ)) := by
  rw [← Complex.exp_add]
  congr 1
  have hNC : (N : ℂ) ≠ 0 := Nat.cast_ne_zero.mpr hN.ne'
  have haC : ((a : ℚ) : ℂ) ≠ 0 := by
    exact_mod_cast ha.ne'
  simp only [dotR, Vec3.toR, qstep_lattice]
  push_cast
  field_simp
  ring

/-- Factorization of the lattice structure factor on the canonical camera's
pixel grid into one-dimensional root-of-unity sums. -/
lemma structureFactor_lattice (N : ℕ) (a : ℚ) (hN : 0 < N) (ha : 0 < a) (i j : ℤ) :
    structureFactor (cubicLattice N a) (qpixel 1 (cubicBox N a) cam0 i j)
      = expSum N i * expSum N j * (N : ℂ) := by
  rw [qpixel_cam0, structureFactor, sum_over_lattice]
  calc
    ∑ m1 ∈ Finset.range N, ∑ m2 ∈ Finset.range N, ∑ m3 ∈ Finset.range N,
        Complex.exp (Complex.I *
          ((dotR { x := qstep 1 (cubicBox N a) * (i : ℝ)
                   y := qstep 1 (cubicBox N a) * (j : ℝ), z := 0 }
              (Vec3.toR { x := a * (m1 : ℚ), y := a * (m2 : ℚ), z := a * (m3 : ℚ) }) : ℝ)))
      = ∑ m1 ∈ Finset.range N, ∑ m2 ∈ Finset.range N, ∑ m3 ∈ Finset.range N,
          Complex.exp (2 * (Real.pi : ℂ) * Complex.I * (i : ℂ) * (m1 : ℂ) / (N : ℂ))
            * Complex.exp (2 * (Real.pi : ℂ) * Complex.I * (j : ℂ) * (m2 : ℂ) / (N : ℂ)) :=
        Finset.sum_congr rfl (fun m1 _ => Finset.sum_congr rfl (fun m2 _ =>
          Finset.sum_congr rfl (fun m3 _ => lattice_term N a hN ha i j m1 m2 m3)))
    _ = expSum N i * expSum N j * (N : ℂ) := by
        rw [expSum, expSum, Finset.sum_mul_sum, Finset.sum_mul]
        refine Finset.sum_congr rfl (fun m1 _ => ?_)
        rw [Finset.sum_mul]
        refine Finset.sum_congr rfl (fun m2 _ => ?_)
        simp [Finset.sum_const, Finset.card_range, mul_comm]

/-- Intensity of the cubic lattice on the canonical pixel grid: the maximal
value `N^6` exactly at pixels whose two indices are multiples of `N`, and `0`
elsewhere. -/
lemma intensity_lattice (N : ℕ) (a : ℚ) (hN : 0 < N) (ha : 0 < a) (i j : ℤ) :
    intensity (cubicLattice N a) (qpixel 1 (cubicBox N a) cam0 i j)
      = if (N : ℤ) ∣ i ∧ (N : ℤ) ∣ j then (N : ℝ) ^ 6 else 0 := by
  have hsq : Complex.normSq ((N : ℕ) : ℂ) = (N : ℝ) ^ 2 := by
    rw [show ((N : ℕ) : ℂ) = (((N : ℝ)) : ℂ) by push_cast; ring, Complex.normSq_ofReal]
    ring
  rw [intensity, structureFactor_lattice N a hN ha i j,
    expSum_eq N hN i, expSum_eq N hN j]
  by_cases hi : (N : ℤ) ∣ i <;> by_cases hj : (N : ℤ) ∣ j
  all_goals simp [hi, hj, Complex.normSq_mul, hsq]
  ring

/-- Pattern of the loaded cubic lattice under the canonical camera. -/
lemma pattern_lattice (N : ℕ) (a : ℚ) (hN : 0 < N) (ha : 0 < a) (i j : ℤ) :
    computePattern 1 (latticeSnap N a) cam0 i j
      = if (N : ℤ) ∣ i ∧ (N : ℤ) ∣ j then (N : ℝ) ^ 6 else 0 := by
  simp only [computePattern, latticeSnap]
  exact intensity_lattice N a hN ha i j

/-- Membership of the origin corner in the cubic lattice. -/
lemma cubicLattice_mem_zero (N : ℕ) (a : ℚ) (hN : 0 < N) :
    ({ x := a * ((0 : ℕ) : ℚ), y := a * ((0 : ℕ) : ℚ), z := a * ((0 : ℕ) : ℚ) } : Vec3 ℚ)
      ∈ cubicLattice N a := by
  simp only [cubicLattice, List.mem_flatMap, List.mem_map, List.mem_range]
  exact ⟨0, hN, 0, hN, 0, hN, rfl⟩

/-- The cubic lattice with a positive point count is nonempty. -/
lemma cubicLattice_ne_nil (N : ℕ) (a : ℚ) (hN : 0 < N) : cubicLattice N a ≠ [] :=
  List.ne_nil_of_mem (cubicLattice_mem_zero N a hN)

/-- The cubic-lattice snapshot passes `load` input validation. -/
lemma validInput_lattice (N : ℕ) (a : ℚ) (hN : 0 < N) (ha : 0 < a) :
    validInput (cubicLattice N a) (cubicBox N a) = true := by
  have hpos : 0 < (N : ℚ) * a := mul_pos (by exact_mod_cast hN) ha
  simp [validInput, cubicBox, hpos, cubicLattice_ne_nil N a hN]

/-- Loading the cubic lattice succeeds and stores its snapshot. -/
lemma latticeD_eq (N : ℕ) (a : ℚ) (hN : 0 < N) (ha : 0 < a) :
    latticeD N a
      = { length_scale := 1, snapshot := some (latticeSnap N a), pattern := none } := by
  rw [latticeD, Diffractometer.runLoad]
  simp [validInput_lattice N a hN ha, Diffractometer.init, latticeSnap]

/-- Squares of nonzero multiples of `N` are at least `N ^ 2`. -/
lemma sq_le_of_dvd (N : ℕ) (i : ℤ) (hdvd : (N : ℤ) ∣ i) (hi : i ≠ 0) :
    ((N : ℤ)) ^ 2 ≤ i ^ 2 := by
  have h1 : (N : ℤ) ≤ |i| := Int.le_of_dvd (abs_pos.mpr hi) ((dvd_abs _ _).mpr hdvd)
  calc ((N : ℤ)) ^ 2 ≤ |i| ^ 2 := pow_le_pow_left₀ (by positivity) h1 2
    _ = i ^ 2 := sq_abs i

/-- Norm of the lattice pixel grid points. -/
lemma vnorm_qpixel_lattice (N : ℕ) (a : ℚ) (hN : 0 < N) (ha : 0 < a) (i j : ℤ) :
    vnorm (qpixel 1 (cubicBox N a) cam0 i j)
      = 2 * Real.pi / ((N : ℝ) * ((a : ℚ) : ℝ)) * Real.sqrt ((i : ℝ) ^ 2 + (j : ℝ) ^ 2) := by
  have hNR : (0 : ℝ) < (N : ℝ) := by exact_mod_cast hN
  have haR : (0 : ℝ) < ((a : ℚ) : ℝ) := by exact_mod_cast ha
  have ht : (0 : ℝ) ≤ 2 * Real.pi / ((N : ℝ) * ((a : ℚ) : ℝ)) := by positivity
  rw [qpixel_cam0, qstep_lattice]
  simp only [vnorm, dotR]
  have harg :
      2 * Real.pi / ((N : ℝ) * ((a : ℚ) : ℝ)) * (i : ℝ)
          * (2 * Real.pi / ((N : ℝ) * ((a : ℚ) : ℝ)) * (i : ℝ))
        + 2 * Real.pi / ((N : ℝ) * ((a : ℚ) : ℝ)) * (j : ℝ)
          * (2 * Real.pi / ((N : ℝ) * ((a : ℚ) : ℝ)) * (j : ℝ))
        + (0 : ℝ) * 0
      = (2 * Real.pi / ((N : ℝ) * ((a : ℚ) : ℝ))) ^ 2 * ((i : ℝ) ^ 2 + (j : ℝ) ^ 2) := by
    ring
  rw [harg, Real.sqrt_mul (by positivity), Real.sqrt_sq ht]

/-- The pixel `(N, 0)` lies at reciprocal distance `2π/a`. -/
lemma vnorm_qpixel_lattice_N0 (N : ℕ) (a : ℚ) (hN : 0 < N) (ha : 0 < a) :
    vnorm (qpixel 1 (cubicBox N a) cam0 (N : ℤ) 0) = 2 * Real.pi / ((a : ℚ) : ℝ) := by
  have hNR : (0 : ℝ) < (N : ℝ) := by exact_mod_cast hN
  have haR : (0 : ℝ) < ((a : ℚ) : ℝ) := by exact_mod_cast ha
  rw [vnorm_qpixel_lattice N a hN ha]
  have hsimp : (((N : ℤ) : ℝ)) ^ 2 + (((0 : ℤ)) : ℝ) ^ 2 = ((N : ℝ)) ^ 2 := by
    push_cast
    ring
  rw [hsimp, Real.sqrt_sq hNR.le]
  field_simp
  ring

/-- First in-plane direction of the rotated canonical camera. -/
lemma camE1_cam1 : camE1 (rotCamZ90 cam0) = { x := 0, y := 1, z := 0 } := by
  simp only [camE1, rotCamZ90, rotZ90, cam0, viewDir, crossR, Vec3.toR, vnormalize, vnorm, dotR]
  norm_num

/-- Second in-plane direction of the rotated canonical camera. -/
lemma camE2_cam1 : camE2 (rotCamZ90 cam0) = { x := -1, y := 0, z := 0 } := by
  rw [camE2, camE1_cam1]
  simp only [rotCamZ90, rotZ90, cam0, viewDir, crossR, vnormalize, vnorm, dotR]
  norm_num

/-- Rotating the camera by the z-axis quarter turn rotates the pixel grid. -/
lemma qpixel_cam1 (ls : ℚ) (b : Box) (i j : ℤ) :
    qpixel ls b (rotCamZ90 cam0) i j = qpixel ls b cam0 (-j) i := by
  simp only [qpixel, camE1_cam0, camE2_cam0, camE1_cam1, camE2_cam1, Vec3.mk.injEq]
  refine ⟨?_, ?_, ?_⟩ <;> push_cast <;> ring

/-- Casting commutes with the z-axis quarter turn. -/
lemma toR_rotZ90 (w : Vec3 ℚ) : Vec3.toR (rotZ90 w) = rotR (Vec3.toR w) := by
  simp [Vec3.toR, rotZ90, rotR]

/-- The viewing direction of the rotated camera is the rotated viewing
direction. -/
lemma viewDir_rotCam (c : Camera) : viewDir (rotCamZ90 c) = rotR (viewDir c) := by
  simp only [viewDir, rotCamZ90, rotZ90, rotR, Vec3.mk.injEq, Rat.cast_neg]
  refine ⟨by ring, by trivial, by trivial⟩

/-- The quarter turn preserves the dot product. -/
lemma dotR_rotR (u v : Vec3 ℝ) : dotR (rotR u) (rotR v) = dotR u v := by
  simp only [dotR, rotR]
  ring

/-- The quarter turn commutes with the cross product. -/
lemma crossR_rotR (u v : Vec3 ℝ) : crossR (rotR u) (rotR v) = rotR (crossR u v) := by
  simp only [crossR, rotR, Vec3.mk.injEq]
  refine ⟨?_, ?_, ?_⟩ <;> ring

/-- The quarter turn preserves the norm. -/
lemma vnorm_rotR (v : Vec3 ℝ) : vnorm (rotR v) = vnorm v := by
  rw [vnorm, vnorm, dotR_rotR]

/-- The quarter turn commutes with normalization (also in the degenerate
zero-norm case, where both sides normalize to the same junk values). -/
lemma vnormalize_rotR (v : Vec3 ℝ) : vnormalize (rotR v) = rotR (vnormalize v) := by
  simp only [vnormalize, vnorm_rotR]
  simp [rotR, neg_div]

/-- The first in-plane direction of the rotated camera is the rotated first
in-plane direction, for every camera. -/
lemma camE1_rotCam (c : Camera) : camE1 (rotCamZ90 c) = rotR (camE1 c) := by
  rw [camE1, camE1, viewDir_rotCam]
  have hup : (rotCamZ90 c).up = rotZ90 c.up := rfl
  rw [hup, toR_rotZ90, crossR_rotR, vnormalize_rotR]

/-- The second in-plane direction of the rotated camera is the rotated second
in-plane direction, for every camera. -/
lemma camE2_rotCam (c : Camera) : camE2 (rotCamZ90 c) = rotR (camE2 c) := by
  rw [camE2, camE2, camE1_rotCam, viewDir_rotCam, crossR_rotR, vnormalize_rotR]

/-- Camera-frame equivariance: for every camera, the pixel grid of the
rotated camera is the rotated pixel grid. -/
lemma qpixel_rotCam (ls : ℚ) (b : Box) (c : Camera) (i j : ℤ) :
    qpixel ls b (rotCamZ90 c) i j = rotR (qpixel ls b c i j) := by
  simp only [qpixel, camE1_rotCam, camE2_rotCam, rotR, Vec3.mk.injEq]
  refine ⟨?_, ?_, ?_⟩ <;> ring_nf

/-- Single-particle phase factor of the lattice structure factor at an
arbitrary reciprocal vector, factorized into one-dimensional phases. -/
lemma lattice_term_general (a : ℚ) (q : Vec3 ℝ) (m1 m2 m3 : ℕ) :
    Complex.exp (Complex.I *
        ((dotR q (Vec3.toR { x := a * (m1 : ℚ), y := a * (m2 : ℚ), z := a * (m3 : ℚ) }) : ℝ) : ℂ))
      = Complex.exp (Complex.I * ((q.x * (((a : ℚ) : ℝ) * (m1 : ℝ)) : ℝ) : ℂ))
        * Complex.exp (Complex.I * ((q.y * (((a : ℚ) : ℝ) * (m2 : ℝ)) : ℝ) : ℂ))
        * Complex.exp (Complex.I * ((q.z * (((a : ℚ) : ℝ) * (m3 : ℝ)) : ℝ) : ℂ)) := by
  rw [← Complex.exp_add, ← Complex.exp_add]
  congr 1
  simp only [dotR, Vec3.toR]
  push_cast
  ring

/-- Factorization of the lattice structure factor at an arbitrary reciprocal
vector into the three one-dimensional phase sums. -/
lemma structureFactor_factorized (N : ℕ) (a : ℚ) (q : Vec3 ℝ) :
    structureFactor (cubicLattice N a) q
      = phaseSum N a q.x * phaseSum N a q.y * phaseSum N a q.z := by
  rw [structureFactor, sum_over_lattice]
  calc
    ∑ m1 ∈ Finset.range N, ∑ m2 ∈ Finset.range N, ∑ m3 ∈ Finset.range N,
        Complex.exp (Complex.I *
          ((dotR q (Vec3.toR { x := a * (m1 : ℚ), y := a * (m2 : ℚ), z := a * (m3 : ℚ) }) : ℝ) : ℂ))
      = ∑ m1 ∈ Finset.range N, ∑ m2 ∈ Finset.range N, ∑ m3 ∈ Finset.range N,
          Complex.exp (Complex.I * ((q.x * (((a : ℚ) : ℝ) * (m1 : ℝ)) : ℝ) : ℂ))
            * Complex.exp (Complex.I * ((q.y * (((a : ℚ) : ℝ) * (m2 : ℝ)) : ℝ) : ℂ))
            * Complex.exp (Complex.I * ((q.z * (((a : ℚ) : ℝ) * (m3 : ℝ)) : ℝ) : ℂ)) :=
        Finset.sum_congr rfl (fun m1 _ => Finset.sum_congr rfl (fun m2 _ =>
          Finset.sum_congr rfl (fun m3 _ => lattice_term_general a q m1 m2 m3)))
    _ = phaseSum N a q.x * phaseSum N a q.y * phaseSum N a q.z := by
        rw [phaseSum, phaseSum, phaseSum, Finset.sum_mul_sum, Finset.sum_mul]
        refine Finset.sum_congr rfl (fun m1 _ => ?_)
        rw [Finset.sum_mul]
        refine Finset.sum_congr rfl (fun m2 _ => ?_)
        rw [Finset.mul_sum]

/-- Negating the reciprocal coordinate conjugates the phase sum, so its
squared magnitude is unchanged. -/
lemma normSq_phaseSum_neg (N : ℕ) (a : ℚ) (t : ℝ) :
    Complex.normSq (phaseSum N a (-t)) = Complex.normSq (phaseSum N a t) := by
  have hconj : phaseSum N a (-t) = (starRingEnd ℂ) (phaseSum N a t) := by
    rw [phaseSum, phaseSum, map_sum]
    refine Finset.sum_congr rfl (fun m _ => ?_)
    rw [← Complex.exp_conj]
    congr 1
    rw [map_mul, Complex.conj_I, Complex.conj_ofReal]
    push_cast
    ring
  rw [hconj, Complex.normSq_conj]

/-- Rotating reciprocal space by the lattice's quarter-turn symmetry leaves
the cubic-lattice intensity unchanged at every reciprocal vector. -/
lemma intensity_lattice_rotR (N : ℕ) (a : ℚ) (q : Vec3 ℝ) :
    intensity (cubicLattice N a) (rotR q) = intensity (cubicLattice N a) q := by
  rw [intensity, intensity, structureFactor_factorized, structureFactor_factorized]
  simp only [rotR]
  rw [Complex.normSq_mul, Complex.normSq_mul, Complex.normSq_mul, Complex.normSq_mul,
    normSq_phaseSum_neg]
  ring

/-- C1: with a loaded snapshot, calling `diffract_from_camera` twice with the
identical camera input returns identical output patterns — the computation is
a function of the snapshot, the camera and the length scale, with no
randomness. -/
theorem C1_determinism (d : Diffractometer) (s : Snapshot) (c : Camera)
    (d1 : Diffractometer) (p1 : Pattern) (d2 : Diffractometer) (p2 : Pattern)
    (hs : d.snapshot = some s)
    (h1 : d.diffract_from_camera c = some (d1, p1))
    (h2 : d1.diffract_from_camera c = some (d2, p2)) :
    p2 = p1 := by
  simp only [Diffractometer.diffract_from_camera, hs, Option.some.injEq,
    Prod.mk.injEq] at h1
  obtain ⟨hd1, hp1⟩ := h1
  subst hd1
  simp only [Diffractometer.diffract_from_camera, hs, Option.some.injEq,
    Prod.mk.injEq] at h2
  rw [← h2.2, ← hp1]

/-- Closed instance of C1 at a concrete loaded snapshot and camera. -/
theorem C1_determinism_witness : wPat = wPat :=
  C1_determinism wD wSnap cam0
    { length_scale := 1, snapshot := some wSnap, pattern := some wPat } wPat
    { length_scale := 1, snapshot := some wSnap, pattern := some wPat } wPat
    rfl rfl rfl

/-- C2: `load` fails with an InvalidInput error whenever the coordinate count
is zero or any box dimension is non-positive; in particular zero particles
are rejected rather than silently accepted. -/
theorem C2_load_invalid_input (d : Diffractometer) (pos : List (Vec3 ℚ)) (b : Box)
    (h : pos.length = 0 ∨ b.Lx ≤ 0 ∨ b.Ly ≤ 0 ∨ b.Lz ≤ 0) :
    (d.runLoad pos b).2 = some LoadError.InvalidInput := by
  have hv : ¬ (validInput pos b = true) := by
    simp only [validInput, Bool.and_eq_true, Bool.not_eq_true', List.isEmpty_eq_false,
      decide_eq_true_eq, ne_eq]
    rintro ⟨⟨⟨hne, h1⟩, h2⟩, h3⟩
    rcases h with h | h | h | h
    · exact hne (List.length_eq_zero.mp h)
    · exact (not_lt.mpr h) h1
    · exact (not_lt.mpr h) h2
    · exact (not_lt.mpr h) h3
  rw [Diffractometer.runLoad, if_neg hv]

/-- Closed instance of C2: loading zero particles raises InvalidInput. -/
theorem C2_load_invalid_input_witness :
    ((Diffractometer.init 1).runLoad [] wBox).2 = some LoadError.InvalidInput :=
  C2_load_invalid_input (Diffractometer.init 1) [] wBox (Or.inl rfl)

/-- C3: when `load` reports an error, the operation is aborted and the
instance — in particular any previously loaded snapshot — is left
unchanged. -/
theorem C3_load_atomic (d : Diffractometer) (pos : List (Vec3 ℚ)) (b : Box)
    (e : LoadError) (h : (d.runLoad pos b).2 = some e) :
    (d.runLoad pos b).1 = d := by
  rw [Diffractometer.runLoad] at h ⊢
  by_cases hv : validInput pos b = true
  · rw [if_pos hv] at h
    simp at h
  · rw [if_neg hv]

/-- Closed instance of C3: a failing load leaves the loaded instance
unchanged. -/
theorem C3_load_atomic_witness : (wD.runLoad [] wBox).1 = wD :=
  C3_load_atomic wD [] wBox LoadError.InvalidInput rfl

/-- C4: a successful `load` fully replaces the previous snapshot — after
loading the same data into two instances with the same length scale, a
`diffract_from_camera` call returns the same result whatever was loaded
before, and that result is determined by the newly loaded snapshot alone. -/
theorem C4_load_replaces (d1 d2 : Diffractometer) (pos : List (Vec3 ℚ)) (b : Box)
    (c : Camera) (hls : d1.length_scale = d2.length_scale)
    (hv : validInput pos b = true) :
    (d1.runLoad pos b).1.diffract_from_camera c
        = (d2.runLoad pos b).1.diffract_from_camera c ∧
    (d1.runLoad pos b).1.diffract_from_camera c
      = some ({ length_scale := d1.length_scale
                snapshot := some { positions := pos, box := b }
                pattern := some (computePattern d1.length_scale { positions := pos, box := b } c) },
              computePattern d1.length_scale { positions := pos, box := b } c) := by
  constructor
  · simp [Diffractometer.runLoad, if_pos hv, Diffractometer.diffract_from_camera, hls]
  · simp [Diffractometer.runLoad, if_pos hv, Diffractometer.diffract_from_camera]

/-- Closed instance of C4 at two concrete instances with different previous
snapshots. -/
theorem C4_load_replaces_witness :
    (wD.runLoad wPos wBox).1.diffract_from_camera cam0
        = ((Diffractometer.init 1).runLoad wPos wBox).1.diffract_from_camera cam0 ∧
    (wD.runLoad wPos wBox).1.diffract_from_camera cam0
      = some ({ length_scale := wD.length_scale
                snapshot := some { positions := wPos, box := wBox }
                pattern := some (computePattern wD.length_scale { positions := wPos, box := wBox } cam0) },
              computePattern wD.length_scale { positions := wPos, box := wBox } cam0) :=
  C4_load_replaces wD (Diffractometer.init 1) wPos wBox cam0 rfl rfl

/-- C5: `diffract_from_camera` returns the computed pattern and stores it in
the instance, and a subsequent `plot()` renders exactly that most recently
computed pattern, returning a figure/axes handle pair carrying it. -/
theorem C5_returns_and_stores (d : Diffractometer) (s : Snapshot) (c : Camera)
    (d' : Diffractometer) (p : Pattern)
    (hs : d.snapshot = some s)
    (h : d.diffract_from_camera c = some (d', p)) :
    p = computePattern d.length_scale s c ∧ d'.pattern = some p ∧
    d'.plot = some ({ image := p }, { image := p }) := by
  simp only [Diffractometer.diffract_from_camera, hs, Option.some.injEq,
    Prod.mk.injEq] at h
  obtain ⟨hd, hp⟩ := h
  subst hd
  refine ⟨hp.symm, ?_, ?_⟩
  · rw [← hp]
  · rw [Diffractometer.plot, ← hp]
    rfl

/-- Closed instance of C5 at a concrete loaded snapshot and camera. -/
theorem C5_returns_and_stores_witness :
    wPat = computePattern wD.length_scale wSnap cam0 ∧
    ({ length_scale := 1, snapshot := some wSnap, pattern := some wPat } :
        Diffractometer).pattern = some wPat ∧
    ({ length_scale := 1, snapshot := some wSnap, pattern := some wPat } :
        Diffractometer).plot = some ({ image := wPat }, { image := wPat }) :=
  C5_returns_and_stores wD wSnap cam0
    { length_scale := 1, snapshot := some wSnap, pattern := some wPat } wPat
    rfl rfl

/-- C8: the loaded snapshot is immutable — `diffract_from_camera` leaves it
(and the length scale) unchanged, the returned pattern is recomputed from
exactly that snapshot, and any further `diffract_from_camera` call on the
resulting instance again recomputes fresh from the same unchanged
snapshot. -/
theorem C8_snapshot_immutable (d : Diffractometer) (s : Snapshot) (c : Camera)
    (d' : Diffractometer) (p : Pattern)
    (hs : d.snapshot = some s)
    (h : d.diffract_from_camera c = some (d', p)) :
    d'.snapshot = some s ∧ d'.length_scale = d.length_scale ∧
    p = computePattern d.length_scale s c ∧
    (∀ (c' : Camera) (d'' : Diffractometer) (p' : Pattern),
        d'.diffract_from_camera c' = some (d'', p') →
        p' = computePattern d.length_scale s c') := by
  simp only [Diffractometer.diffract_from_camera, hs, Option.some.injEq,
    Prod.mk.injEq] at h
  obtain ⟨hd, hp⟩ := h
  subst hd
  refine ⟨rfl, rfl, hp.symm, ?_⟩
  intro c' d'' p' h'
  simp only [Diffractometer.diffract_from_camera, hs, Option.some.injEq,
    Prod.mk.injEq] at h'
  exact h'.2.symm

/-- Closed instance of C8 at a concrete loaded snapshot and camera. -/
theorem C8_snapshot_immutable_witness :
    ({ length_scale := 1, snapshot := some wSnap, pattern := some wPat } :
        Diffractometer).snapshot = some wSnap ∧
    ({ length_scale := 1, snapshot := some wSnap, pattern := some wPat } :
        Diffractometer).length_scale = wD.length_scale ∧
    wPat = computePattern wD.length_scale wSnap cam0 ∧
    (∀ (c' : Camera) (d'' : Diffractometer) (p' : Pattern),
        ({ length_scale := 1, snapshot := some wSnap, pattern := some wPat } :
            Diffractometer).diffract_from_camera c' = some (d'', p') →
        p' = computePattern wD.length_scale wSnap c') :=
  C8_snapshot_immutable wD wSnap cam0
    { length_scale := 1, snapshot := some wSnap, pattern := some wPat } wPat
    rfl rfl

/-- C9: `length_scale` is fixed at construction and never changed — the
constructor stores it, `runLoad` and `diffract_from_camera` preserve it, and
the pattern computed by `diffract_from_camera` uses the instance's stored
length scale. -/
theorem C9_length_scale_fixed (ls : ℚ) (d : Diffractometer) (pos : List (Vec3 ℚ))
    (b : Box) (c : Camera) (d' : Diffractometer) (p : Pattern)
    (h : d.diffract_from_camera c = some (d', p)) :
    (Diffractometer.init ls).length_scale = ls ∧
    (d.runLoad pos b).1.length_scale = d.length_scale ∧
    d'.length_scale = d.length_scale ∧
    (∀ s : Snapshot, d.snapshot = some s → p = computePattern d.length_scale s c) := by
  refine ⟨rfl, ?_, ?_, ?_⟩
  · rw [Diffractometer.runLoad]
    by_cases hv : validInput pos b = true
    · rw [if_pos hv]
    · rw [if_neg hv]
  · cases hsnap : d.snapshot with
    | none =>
        simp only [Diffractometer.diffract_from_camera, hsnap] at h
        exact Option.noConfusion h
    | some s =>
        simp only [Diffractometer.diffract_from_camera, hsnap, Option.some.injEq,
          Prod.mk.injEq] at h
        rw [← h.1]
  · intro s hs
    simp only [Diffractometer.diffract_from_camera, hs, Option.some.injEq,
      Prod.mk.injEq] at h
    exact h.2.symm

/-- Closed instance of C9 at a concrete loaded instance. -/
theorem C9_length_scale_fixed_witness :
    (Diffractometer.init 7).length_scale = 7 ∧
    (wD.runLoad wPos wBox).1.length_scale = wD.length_scale ∧
    ({ length_scale := 1, snapshot := some wSnap, pattern := some wPat } :
        Diffractometer).length_scale = wD.length_scale ∧
    (∀ s : Snapshot, wD.snapshot = some s → wPat = computePattern wD.length_scale s cam0) :=
  C9_length_scale_fixed 7 wD wPos wBox cam0
    { length_scale := 1, snapshot := some wSnap, pattern := some wPat } wPat
    rfl

/-- C10: `get_scene` returns a scene/info pair whose info is exactly
`get_info`'s result; the info carries the file's positions and box unchanged,
and those values are accepted directly by `Diffractometer.load` (succeeding
whenever they pass input validation, with the snapshot stored as given). -/
theorem C10_factories (f : StructureFile) (ls : ℚ)
    (hv : validInput f.positions f.box = true) :
    (get_scene f).2 = get_info f ∧
    (get_info f).positions = f.positions ∧
    (get_info f).box = f.box ∧
    ((Diffractometer.init ls).runLoad (get_info f).positions (get_info f).box).2 = none ∧
    ((Diffractometer.init ls).runLoad (get_info f).positions (get_info f).box).1.snapshot
      = some { positions := f.positions, box := f.box } := by
  refine ⟨rfl, rfl, rfl, ?_, ?_⟩ <;>
    simp [Diffractometer.runLoad, get_info, hv, Diffractometer.init]

/-- C6: for every cubic lattice of particles with known real-space
periodicity `a`, the diffraction pattern computed by `diffract_from_camera`
(canonical axis-aligned camera, `length_scale = 1`, the documented `2π/a`
convention) attains its maximum `N^6` at the non-origin pixel `(N, 0)`, which
lies at reciprocal distance `2π/a`; every pixel is bounded by that maximum,
and every non-origin pixel attaining it lies at reciprocal distance at least
`2π/a` — the strongest non-origin peak sits at reciprocal distance `2π/a`. -/
theorem C6_cubic_lattice_peak (N : ℕ) (a : ℚ) (hN : 0 < N) (ha : 0 < a) :
    ∃ dp : Diffractometer × Pattern,
      (latticeD N a).diffract_from_camera cam0 = some dp ∧
      dp.2 (N : ℤ) 0 = (N : ℝ) ^ 6 ∧
      ¬((N : ℤ) = 0 ∧ (0 : ℤ) = 0) ∧
      vnorm (qpixel 1 (cubicBox N a) cam0 (N : ℤ) 0) = 2 * Real.pi / ((a : ℚ) : ℝ) ∧
      (∀ i j : ℤ, dp.2 i j ≤ dp.2 (N : ℤ) 0) ∧
      (∀ i j : ℤ, ¬(i = 0 ∧ j = 0) → dp.2 i j = dp.2 (N : ℤ) 0 →
        2 * Real.pi / ((a : ℚ) : ℝ) ≤ vnorm (qpixel 1 (cubicBox N a) cam0 i j)) := by
  have hP : ∀ i j : ℤ, computePattern 1 (latticeSnap N a) cam0 i j
      = if (N : ℤ) ∣ i ∧ (N : ℤ) ∣ j then (N : ℝ) ^ 6 else 0 :=
    pattern_lattice N a hN ha
  have hPN0 : computePattern 1 (latticeSnap N a) cam0 (N : ℤ) 0 = (N : ℝ) ^ 6 := by
    rw [hP]
    simp
  refine ⟨({ length_scale := 1, snapshot := some (latticeSnap N a)
             pattern := some (computePattern 1 (latticeSnap N a) cam0) },
           computePattern 1 (latticeSnap N a) cam0), ?_, hPN0, ?_, ?_, ?_, ?_⟩
  · rw [latticeD_eq N a hN ha]
    rfl
  · simp [hN.ne']
  · exact vnorm_qpixel_lattice_N0 N a hN ha
  · intro i j
    dsimp only
    rw [hP, hPN0]
    split
    · exact le_refl _
    · positivity
  · intro i j hij heq
    dsimp only at heq
    rw [hP, hPN0] at heq
    have hNR : (0 : ℝ) < (N : ℝ) := by exact_mod_cast hN
    have haR : (0 : ℝ) < ((a : ℚ) : ℝ) := by exact_mod_cast ha
    by_cases hcond : (N : ℤ) ∣ i ∧ (N : ℤ) ∣ j
    · obtain ⟨hi, hj⟩ := hcond
      have hij' : i ≠ 0 ∨ j ≠ 0 := by tauto
      have hsq : ((N : ℤ)) ^ 2 ≤ i ^ 2 + j ^ 2 := by
        rcases hij' with h0 | h0
        · have := sq_le_of_dvd N i hi h0
          nlinarith [sq_nonneg j]
        · have := sq_le_of_dvd N j hj h0
          nlinarith [sq_nonneg i]
      have hsqR : ((N : ℝ)) ^ 2 ≤ (i : ℝ) ^ 2 + (j : ℝ) ^ 2 := by exact_mod_cast hsq
      rw [vnorm_qpixel_lattice N a hN ha]
      have hstep : 2 * Real.pi / ((a : ℚ) : ℝ)
          = 2 * Real.pi / ((N : ℝ) * ((a : ℚ) : ℝ)) * (N : ℝ) := by
        field_simp
        ring
      rw [hstep]
      apply mul_le_mul_of_nonneg_left ?_ (by positivity)
      calc (N : ℝ) = Real.sqrt ((N : ℝ) ^ 2) := (Real.sqrt_sq hNR.le).symm
        _ ≤ Real.sqrt ((i : ℝ) ^ 2 + (j : ℝ) ^ 2) := Real.sqrt_le_sqrt hsqR
    · rw [if_neg hcond] at heq
      exact absurd heq.symm (by positivity)

/-- Closed instance of C6 at the unit lattice. -/
theorem C6_cubic_lattice_peak_witness :
    ∃ dp : Diffractometer × Pattern,
      (latticeD 1 1).diffract_from_camera cam0 = some dp ∧
      dp.2 ((1 : ℕ) : ℤ) 0 = ((1 : ℕ) : ℝ) ^ 6 ∧
      ¬(((1 : ℕ) : ℤ) = 0 ∧ (0 : ℤ) = 0) ∧
      vnorm (qpixel 1 (cubicBox 1 1) cam0 ((1 : ℕ) : ℤ) 0) = 2 * Real.pi / ((1 : ℚ) : ℝ) ∧
      (∀ i j : ℤ, dp.2 i j ≤ dp.2 ((1 : ℕ) : ℤ) 0) ∧
      (∀ i j : ℤ, ¬(i = 0 ∧ j = 0) → dp.2 i j = dp.2 ((1 : ℕ) : ℤ) 0 →
        2 * Real.pi / ((1 : ℚ) : ℝ) ≤ vnorm (qpixel 1 (cubicBox 1 1) cam0 i j)) :=
  C6_cubic_lattice_peak 1 1 (by decide) (by decide)

/-- C7: for every loaded lattice snapshot and every camera, rotating the
camera by the lattice's 90° principal-axis symmetry yields the original
pattern transformed by the corresponding reciprocal-space rotation (for any
snapshot, the rotated camera's pattern samples the intensity field at the
rotated pixel grid), and for the cubic lattice the resulting pattern is
pointwise invariant — equal to the original at every pixel, for every
camera. -/
theorem C7_camera_rotation (N : ℕ) (a : ℚ) :
    (∀ (ls : ℚ) (s : Snapshot) (c : Camera) (i j : ℤ),
        computePattern ls s (rotCamZ90 c) i j
          = intensity s.positions (rotR (qpixel ls s.box c i j))) ∧
    (∀ (c : Camera) (i j : ℤ),
        computePattern 1 (latticeSnap N a) (rotCamZ90 c) i j
          = computePattern 1 (latticeSnap N a) c i j) := by
  constructor
  · intro ls s c i j
    simp only [computePattern, qpixel_rotCam]
  · intro c i j
    simp only [computePattern, latticeSnap, qpixel_rotCam]
    exact intensity_lattice_rotR N a (qpixel 1 (cubicBox N a) c i j)

/-- Closed instance of C10 at a concrete structure file. -/
theorem C10_factories_witness :
    (get_scene wFile).2 = get_info wFile ∧
    (get_info wFile).positions = wFile.positions ∧
    (get_info wFile).box = wFile.box ∧
    ((Diffractometer.init 1).runLoad (get_info wFile).positions (get_info wFile).box).2 = none ∧
    ((Diffractometer.init 1).runLoad (get_info wFile).positions (get_info wFile).box).1.snapshot
      = some { positions := wFile.positions, box := wFile.box } :=
  C10_factories wFile 1 rfl

end Gixstapose
